import Mathlib

/-!
Verification of the availability-time parsing core (`line_parser.py`).

The development shallowly embeds the two components of the program:

* the token extractor: the compiled pattern `available_time_regex` together
  with `finditer`, modelled as a deterministic scanner over `List Char`
  (the pattern has no choice point whose failure can propagate past an
  enclosing optional group, so the first depth-first success of the Python
  backtracking engine coincides with this straight-line reading);
* the interval resolver: the body of `get_available_times_from_line`,
  including `get_24_hour_format` and `get_hours_minutes`.

Python values are modelled as follows: `int` results of parsing digit
strings are `Nat`; a raised exception (the only possible one is the
`ValueError` from `int(...)` / tuple unpacking inside `get_hours_minutes`)
is `Option.none`, threaded through the pipeline; `Time` objects carry an
allocation identifier `oid` that models Python object identity, because
`Time` defines neither `__eq__` nor `__hash__`, so `TimeSlot.__eq__`
compares its `Time` components by identity; the Python `set` of slots is
modelled as a duplicate-free list built with an insert that compares by
the program's own `__eq__`.
-/

/-- Maximal run of decimal digits at the head of the character list,
modelling a greedy `\d+` / `\d*` step, together with the remainder. -/
def takeDigits : List Char → List Char × List Char
  | [] => ([], [])
  | c :: cs =>
    if c.isDigit then (c :: (takeDigits cs).1, (takeDigits cs).2)
    else ([], c :: cs)

/-- Whitespace characters matched by Python's `\s` on ASCII text. -/
def isWsChar (c : Char) : Bool :=
  c == ' ' || c == '\t' || c == '\n' || c == '\r' || c == '\x0b' || c == '\x0c'

/-- Greedy `\s*`: drop the maximal whitespace run. -/
def skipWs : List Char → List Char
  | [] => []
  | c :: cs => if isWsChar c then skipWs cs else c :: cs

/-- Python `str.split(sep)` on a character list (for a one-character
separator): `splitCh ':' "a:b".data = ["a".data, "b".data]`. -/
def splitCh (sep : Char) : List Char → List (List Char)
  | [] => [[]]
  | c :: cs =>
    if c = sep then [] :: splitCh sep cs
    else
      match splitCh sep cs with
      | g :: gs => (c :: g) :: gs
      | [] => [[c]]

/-- Python `int(s)` on the strings this program feeds it: defined (as the
decimal value) exactly on nonempty all-digit strings, `none` models the
`ValueError` raised otherwise. -/
def pyIntChars (cs : List Char) : Option Nat :=
  if cs = [] then none
  else if cs.all Char.isDigit then
    some (cs.foldl (fun a c => a * 10 + (c.toNat - 48)) 0)
  else none

/-- Case-insensitive literal-pattern step: if the head of `cs` spells
`pat` up to ASCII case, return the matched original characters and the
remainder.  This models one alternative of the meridiem alternation under
`re.I`. -/
def ciTake : List Char → List Char → Option (List Char × List Char)
  | [], cs => some ([], cs)
  | _ :: _, [] => none
  | p :: ps, c :: cs =>
    if c.toLower = p.toLower then
      match ciTake ps cs with
      | some (g, r) => some (c :: g, r)
      | none => none
    else none

/-- Ordered alternation over literal alternatives (first match wins, as in
the Python regex alternation `am|a\.m|a\.m\.|pm|p\.m|p\.m\.`). -/
def firstTake : List String → List Char → Option (String × List Char)
  | [], _ => none
  | a :: rest, cs =>
    match ciTake a.data cs with
    | some (g, r) => some (String.mk g, r)
    | none => firstTake rest cs

/-- The alternatives of the meridiem-marker alternation, in source order. -/
def meridiem_alts : List String := ["am", "a.m", "a.m.", "pm", "p.m", "p.m."]

/-- Embedding of `twelve_hour_format_regex.match(s) is not None`:
some meridiem alternative matches a prefix of `s`, case-insensitively. -/
def twelve_hour_format_match (s : String) : Bool :=
  meridiem_alts.any fun a => (ciTake a.data s.data).isSome

/-- Embedding of `am_format_regex.match(s) is not None`. -/
def am_format_match (s : String) : Bool :=
  ["am", "a.m", "a.m."].any fun a => (ciTake a.data s.data).isSome

/-- Embedding of `pm_format_regex.match(s) is not None`. -/
def pm_format_match (s : String) : Bool :=
  ["pm", "p.m", "p.m."].any fun a => (ciTake a.data s.data).isSome

/-- The program's `Time` class.  `oid` is the allocation identifier that
models Python object identity: `Time` defines neither `__eq__` nor
`__hash__`, so two `Time` objects compare equal exactly when they are the
same object. -/
structure Time where
  oid : Nat
  hours : Nat
  minutes : Nat
deriving DecidableEq, Repr

/-- The program's `TimeSlot` class: a start time and an optional end time. -/
structure TimeSlot where
  start_time : Time
  end_time : Option Time
deriving DecidableEq, Repr

/-- Python `==` on `Time` objects (default object identity). -/
def pyTimeEq (a b : Time) : Bool := a.oid == b.oid

/-- Python `==` on the optional `end_time` field (`None == None` is true,
`None` never equals a `Time`, two `Time`s compare by identity). -/
def pyOptTimeEq : Option Time → Option Time → Bool
  | none, none => true
  | some a, some b => pyTimeEq a b
  | _, _ => false

/-- `TimeSlot.__eq__`: componentwise Python equality of `start_time` and
`end_time`. -/
def pyTimeSlotEq (a b : TimeSlot) : Bool :=
  pyTimeEq a.start_time b.start_time && pyOptTimeEq a.end_time b.end_time

/-- Python `str.rjust(width, fill)`. -/
def pyRjust (s : String) (width : Nat) (fill : Char) : String :=
  String.mk (List.replicate (width - s.length) fill) ++ s

/-- Python `str.ljust(width, fill)`. -/
def pyLjust (s : String) (width : Nat) (fill : Char) : String :=
  s ++ String.mk (List.replicate (width - s.length) fill)

/-- `Time.__str__`: `'{}:{}'.format(str(hours).rjust(2, '0'),
str(minutes).ljust(2, '0'))`. -/
def Time.str (t : Time) : String :=
  pyRjust (Nat.repr t.hours) 2 '0' ++ ":" ++ pyLjust (Nat.repr t.minutes) 2 '0'

/-- The function `get_24_hour_format(hour, indicator)`: hour 12 with an
`am`-matching indicator becomes 0, otherwise a `pm`-matching indicator adds
12; the result is reduced mod 24. -/
def get_24_hour_format (hour : Nat) (indicator : String) : Nat :=
  (if hour = 12 ∧ am_format_match indicator then 0
   else if pm_format_match indicator then hour + 12
   else hour) % 24

/-- The function `get_hours_minutes(time)`: split on `':'` into exactly an
hour and a minute part when a colon is present, else the whole string is the
hour and the minutes are 0.  `none` models the `ValueError` from `int` or
from unpacking a list whose length is not 2. -/
def get_hours_minutes (time : String) : Option (Nat × Nat) :=
  if ':' ∈ time.data then
    match (splitCh ':' time.data).map pyIntChars with
    | [some h, some mi] => some (h, mi)
    | _ => none
  else
    match pyIntChars time.data with
    | some h => some (h, 0)
    | none => none

/-- One raw match of `available_time_regex`: the four captured groups, with
`""` for an absent group (as `get_available_times_from_line` normalises
them via `or ''`). -/
structure RawMatch where
  start_time : String
  SI : String
  end_time : String
  EI : String
deriving DecidableEq, Repr

/-- The group `\d+(?:[:]{0,1}\d+)?`: a maximal digit run, optionally
followed by a colon and another maximal digit run.  (With the first run
greedy and maximal, the zero-colon branch of `[:]{0,1}` can never extend
the match, so only the colon branch remains.) -/
def timeGroup (cs : List Char) : Option (List Char × List Char) :=
  let d1 := (takeDigits cs).1
  let rest := (takeDigits cs).2
  if d1 = [] then none
  else
    match rest with
    | [] => some (d1, rest)
    | c :: r2 =>
      if c = ':' then
        let d2 := (takeDigits r2).1
        if d2 = [] then some (d1, rest)
        else some (d1 ++ ':' :: d2, (takeDigits r2).2)
      else some (d1, rest)

/-- The optional end group `(?:[-: ](?P<end_time>...)\s*(?P<EI>...))?` of
the pattern, attempted after the start group and its indicator: it needs a
separator, an end time and an end indicator, and is skipped entirely (its
empty branch always succeeds) when any of them fails. -/
def matchTail (st si : String) (r3 : List Char) : RawMatch × List Char :=
  match r3 with
  | [] => (⟨st, si, "", ""⟩, r3)
  | sep :: r4 =>
    if sep == '-' || sep == ':' || sep == ' ' then
      match timeGroup r4 with
      | none => (⟨st, si, "", ""⟩, r3)
      | some (et, r5) =>
        match firstTake meridiem_alts (skipWs r5) with
        | some (ei, r7) => (⟨st, si, String.mk et, ei⟩, r7)
        | none => (⟨st, si, "", ""⟩, r3)
    else (⟨st, si, "", ""⟩, r3)

/-- A single attempt of `available_time_regex` anchored at the head of
`cs`, returning the raw match and the remainder of the text: the start
group, greedy `\s*`, the optional start indicator (ordered alternation,
first success kept — a failure of the later end group never backtracks
into it, since the end group's empty branch always succeeds), then the
optional end group. -/
def matchAt (cs : List Char) : Option (RawMatch × List Char) :=
  match timeGroup cs with
  | none => none
  | some (st, r1) =>
    match firstTake meridiem_alts (skipWs r1) with
    | some (si, r3) => some (matchTail (String.mk st) si r3)
    | none => some (matchTail (String.mk st) "" (skipWs r1))

/-- `available_time_regex.finditer`: scan left to right, yielding
non-overlapping matches; on failure advance one character.  The fuel
argument bounds the number of steps; every step either consumes at least
one character or drops one, so `cs.length` fuel is always enough. -/
def finditerAux : Nat → List Char → List RawMatch
  | 0, _ => []
  | _ + 1, [] => []
  | fuel + 1, c :: cs =>
    match matchAt (c :: cs) with
    | some (m, rest) => m :: finditerAux fuel rest
    | none => finditerAux fuel cs

/-- All matches of `available_time_regex` in a line, in order. -/
def available_time_matches (line : String) : List RawMatch :=
  finditerAux line.data.length line.data

/-- The end-hour resolution of lines 131–150: the `uses_24_hour_format`
flag skips everything; otherwise the separate `if` of line 133 converts
the end hour with the START indicator when both indicators are nonempty,
and the `if`/`elif` chain of lines 136–150 then branches on which
indicators are present (the last branch is the night heuristic).  Returns
the final (start hour, end hour) pair. -/
def rangedHours (sh1 e0 : Nat) (si ei : String) (uses24 : Bool) : Nat × Nat :=
  if uses24 = true then (sh1, e0)
  else
    let e1 := if si ≠ "" ∧ ei ≠ "" then get_24_hour_format e0 si else e0
    if si ≠ "" ∧ ei = "" then (sh1, get_24_hour_format e1 si)
    else if si = "" ∧ ei ≠ "" then (get_24_hour_format sh1 ei, e1)
    else if si = "" ∧ ei = "" then
      let spm := get_24_hour_format sh1 "pm"
      if e1 < spm ∨ e1 = 12 then (spm, get_24_hour_format e1 "am")
      else (spm, get_24_hour_format e1 "pm")
    else (sh1, e1)

/-- The body of the second loop of `get_available_times_from_line` for one
raw match, threading the allocation counter for `Time` objects (the end
`Time` of line 151 is allocated before the start `Time` of line 155).
The `uses_24_hour_format` flag is the one computed for this match by the
first loop (lines 111–113).  `none` models an exception escaping from
`get_hours_minutes`. -/
def resolveMatchCnt (m : RawMatch) (cnt : Nat) : Option (TimeSlot × Nat) :=
  let uses24 := !(twelve_hour_format_match m.SI || twelve_hour_format_match m.EI)
  match get_hours_minutes m.start_time with
  | none => none
  | some (h0, start_minute) =>
    let sh1 := if uses24 = true then h0 else get_24_hour_format h0 m.SI
    if m.end_time = "" then
      let sh2 := if m.SI = "" then get_24_hour_format sh1 "pm" else sh1
      some (⟨⟨cnt, sh2, start_minute⟩, none⟩, cnt + 1)
    else
      match get_hours_minutes m.end_time with
      | none => none
      | some (e0, end_minute) =>
        let p := rangedHours sh1 e0 m.SI m.EI uses24
        some (⟨⟨cnt + 1, p.1, start_minute⟩, some ⟨cnt, p.2, end_minute⟩⟩, cnt + 2)

/-- `set.add` on the result set: keep the existing element when one is
already `==`-equal (under the program's `TimeSlot.__eq__`), else insert. -/
def setAdd (s : List TimeSlot) (x : TimeSlot) : List TimeSlot :=
  if s.any (fun y => pyTimeSlotEq y x) then s else s ++ [x]

/-- The second loop of `get_available_times_from_line`: resolve every raw
match in order, adding each produced slot to the result set. -/
def resolveAll : List RawMatch → Nat → List TimeSlot → Option (List TimeSlot)
  | [], _, acc => some acc
  | m :: ms, cnt, acc =>
    match resolveMatchCnt m cnt with
    | some (slot, cnt2) => resolveAll ms cnt2 (setAdd acc slot)
    | none => none

/-- The function `get_available_times_from_line(line)`: extract all raw
matches and resolve each into a `TimeSlot`, collecting them in a set. -/
def get_available_times_from_line (line : String) : Option (List TimeSlot) :=
  resolveAll (available_time_matches line) 0 []

/-- Observation of a `Time` without its allocation identity. -/
def timeView (t : Time) : Nat × Nat := (t.hours, t.minutes)

/-- Observation of a `TimeSlot` without allocation identities:
((start hour, start minute), optional (end hour, end minute)). -/
def slotView (s : TimeSlot) : (Nat × Nat) × Option (Nat × Nat) :=
  (timeView s.start_time, s.end_time.map timeView)

/-- The resolved slots of a line, observed without allocation identities. -/
def lineView (line : String) : Option (List ((Nat × Nat) × Option (Nat × Nat))) :=
  (get_available_times_from_line line).map (List.map slotView)

/-- The start hours of the resolved slots of a line, in insertion order. -/
def startHoursView (line : String) : Option (List Nat) :=
  (get_available_times_from_line line).map (List.map (fun s => s.start_time.hours))

/-- Shape of every raw match the extractor can produce: both captured time
strings parse in `get_hours_minutes` (so no exception is possible), the
start indicator, when present, matches the twelve-hour pattern, and an end
time is always accompanied by an end indicator matching it. -/
def MatchInv (m : RawMatch) : Prop :=
  (∃ p, get_hours_minutes m.start_time = some p) ∧
  (m.end_time ≠ "" → ∃ p, get_hours_minutes m.end_time = some p) ∧
  (m.SI ≠ "" → twelve_hour_format_match m.SI = true) ∧
  (m.end_time ≠ "" → twelve_hour_format_match m.EI = true)

theorem get_24_hour_format_lt (h : Nat) (ind : String) :
    get_24_hour_format h ind < 24 :=
  Nat.mod_lt _ (by decide)

theorem ciTake_isSome_head {p : Char} {ps cs : List Char}
    (h : (ciTake (p :: ps) cs).isSome = true) :
    ∃ c cs', cs = c :: cs' ∧ c.toLower = p.toLower := by
  cases cs with
  | nil => simp [ciTake] at h
  | cons c cs' =>
    refine ⟨c, cs', rfl, ?_⟩
    by_contra hne
    simp [ciTake, hne] at h

theorem headA_of_am {s : String} (h : am_format_match s = true) :
    ∃ c cs', s.data = c :: cs' ∧ c.toLower = 'a' := by
  have e1 : ("am" : String).data = 'a' :: ['m'] := rfl
  have e2 : ("a.m" : String).data = 'a' :: ['.', 'm'] := rfl
  have e3 : ("a.m." : String).data = 'a' :: ['.', 'm', '.'] := rfl
  simp only [am_format_match, List.any_cons, List.any_nil, Bool.or_false,
    Bool.or_eq_true, e1, e2, e3] at h
  have ha : ('a').toLower = 'a' := by decide
  rcases h with h | h | h <;>
    · obtain ⟨c, cs', hcs, hc⟩ := ciTake_isSome_head h
      exact ⟨c, cs', hcs, by rw [hc, ha]⟩

theorem notPm_of_headA {s : String}
    (hc : ∃ c cs', s.data = c :: cs' ∧ c.toLower = 'a') :
    pm_format_match s = false := by
  obtain ⟨c, cs', hdata, hlow⟩ := hc
  have e1 : ("pm" : String).data = 'p' :: ['m'] := rfl
  have e2 : ("p.m" : String).data = 'p' :: ['.', 'm'] := rfl
  have e3 : ("p.m." : String).data = 'p' :: ['.', 'm', '.'] := rfl
  have hnone : ∀ ps : List Char, ciTake ('p' :: ps) (c :: cs') = none := by
    intro ps
    have hne : ¬ (c.toLower = 'p') := by rw [hlow]; decide
    simp [ciTake, hne]
  simp [pm_format_match, e1, e2, e3, hdata, hnone]

/-- C1: the night heuristic is dead code.  A ranged match without meridiem
markers is classified 24-hour, so the resolver leaves `("5","","6","")` at
start 05:00 and end 06:00 instead of applying the heuristic; and on the
full line `"5:00-6:00"` the extractor (whose end group demands an end
indicator) produces two separate bare matches, which the lone-number PM
default turns into the two endless slots 17:00 and 18:00 — not one
heuristic interval. -/
theorem C1_night_heuristic_dead :
    (resolveMatchCnt ⟨"5", "", "6", ""⟩ 0).map (fun r => slotView r.1) =
      some ((5, 0), some (6, 0)) ∧
    lineView "5:00-6:00" = some [((17, 0), none), ((18, 0), none)] := by
  decide

/-- C2: with no start marker and an end marker, the resolver converts the
start hour with the end marker but leaves the end hour unconverted: the
match `("7","","9","pm")` (from the line `"7-9pm"`) resolves to start
19:00 and end 09:00, not end 21:00 as the claim states. -/
theorem C2_end_marker_ignored :
    (resolveMatchCnt ⟨"7", "", "9", "pm"⟩ 0).map (fun r => slotView r.1) =
      some ((19, 0), some (9, 0)) ∧
    lineView "7-9pm" = some [((19, 0), some (9, 0))] ∧
    ¬ lineView "7-9pm" = some [((19, 0), some (21, 0))] := by
  refine ⟨by decide, by decide, by decide⟩

/-- C3: with both markers present, line 134 converts the end hour with the
START indicator (`temp_slot[1]`), not the end indicator: the match
`("3","pm","9","am")` (from the line `"3pm-9am"`) resolves to end 21:00,
not end 09:00 as the claim states. -/
theorem C3_end_uses_start_marker :
    (resolveMatchCnt ⟨"3", "pm", "9", "am"⟩ 0).map (fun r => slotView r.1) =
      some ((15, 0), some (21, 0)) ∧
    lineView "3pm-9am" = some [((15, 0), some (21, 0))] ∧
    ¬ lineView "3pm-9am" = some [((15, 0), some (9, 0))] := by
  refine ⟨by decide, by decide, by decide⟩

/-- C4 counterexample: not every produced hour is in [0,23].  On the line
`"7-930pm"` the match `("7","","930","pm")` takes the branch that converts
only the start hour with the end indicator, so the end hour 930 is used
raw and never reduced mod 24. -/
theorem C4_end_hour_escapes_range :
    lineView "7-930pm" = some [((19, 0), some (930, 0))] ∧ ¬ (930 ≤ 23) := by
  refine ⟨by decide, by decide⟩

/-- C5: the result set does not deduplicate structurally equal slots.
`Time` defines neither `__eq__` nor `__hash__`, so `TimeSlot.__eq__`
compares the `Time` components by object identity; the two textually
identical ranges of `"7pm-9pm, 7pm-9pm"` therefore both stay in the set:
two slots with identical (hour, minute) components that the program's own
equality distinguishes. -/
theorem C5_no_structural_dedup :
    lineView "7pm-9pm, 7pm-9pm" =
      some [((19, 0), some (21, 0)), ((19, 0), some (21, 0))] ∧
    (get_available_times_from_line "7pm-9pm, 7pm-9pm").map List.length = some 2 ∧
    (get_available_times_from_line "7pm-9pm, 7pm-9pm").map
      (fun l => match l with
        | [a, b] => pyTimeSlotEq a b
        | _ => true) = some false := by
  refine ⟨by decide, by decide, by decide⟩

/-- C7 counterexample: resolving `"12pm"` yields start hour 0, not 12 (the
pm branch computes (12+12) mod 24), and resolving bare `"13"` yields start
hour 1, not 13 (the lone-number PM default computes (13+12) mod 24). -/
theorem C7_twelve_pm_and_13_differ :
    startHoursView "12pm" = some [0] ∧ ¬ startHoursView "12pm" = some [12] ∧
    startHoursView "13" = some [1] ∧ ¬ startHoursView "13" = some [13] := by
  refine ⟨by decide, by decide, by decide, by decide⟩

/-- C7 amended: `"12pm"` resolves to start hour 0 ((12+12) mod 24),
`"12am"` to start hour 0, and bare `"13"` to start hour 1 (no marker and
no end time triggers the unconditional PM default, (13+12) mod 24). -/
theorem C7_resolved_start_hours :
    startHoursView "12pm" = some [0] ∧
    startHoursView "12am" = some [0] ∧
    startHoursView "13" = some [1] := by
  refine ⟨by decide, by decide, by decide⟩

/-- C8: the extractor yields exactly two raw matches on
`"7:30 pm-9pm, 10pm-12am"`, in left-to-right order:
`("7:30","pm","9","pm")` then `("10","pm","12","am")`. -/
theorem C8_extractor_two_matches :
    available_time_matches "7:30 pm-9pm, 10pm-12am" =
      [⟨"7:30", "pm", "9", "pm"⟩, ⟨"10", "pm", "12", "am"⟩] := by
  decide

/-- C10 counterexample: the minute field is left-justified but padded with
the character '0', not a space, so `Time(19, 5)` renders as `"19:50"` and
not as `"19:5 "`. -/
theorem C10_minute_pads_with_zero :
    Time.str ⟨0, 19, 5⟩ = "19:50" ∧ ¬ Time.str ⟨0, 19, 5⟩ = "19:5 " := by
  refine ⟨by decide, by decide⟩

/-- C10 amended: rendering is `HH:MM` with the hour right-justified padded
on the left with '0' and the minute left-justified padded on the right
with '0', so minute 5 renders `"50"`: `Time(19,5)` gives `"19:50"`,
`Time(5,0)` gives `"05:00"`, `Time(19,30)` gives `"19:30"`. -/
theorem C10_render_padding :
    Time.str ⟨0, 19, 5⟩ = "19:50" ∧
    Time.str ⟨1, 5, 0⟩ = "05:00" ∧
    Time.str ⟨2, 19, 30⟩ = "19:30" := by
  refine ⟨by decide, by decide, by decide⟩

/-- C6: over the hours 0–23, `get_24_hour_format` is the identity for an
empty indicator, adds 12 mod 24 for a pm-matching indicator, maps hour 12
to 0 for an am-matching indicator and is the identity for an am-matching
indicator on any other hour. -/
theorem C6_get_24_hour_format_cases (h : Nat) (hh : h < 24) (ind : String) :
    (ind = "" → get_24_hour_format h ind = h) ∧
    (pm_format_match ind = true → get_24_hour_format h ind = (h + 12) % 24) ∧
    (am_format_match ind = true →
      (h = 12 → get_24_hour_format h ind = 0) ∧
      (h ≠ 12 → get_24_hour_format h ind = h)) := by
  refine ⟨?_, ?_, ?_⟩
  · rintro rfl
    have ha : am_format_match "" = false := by decide
    have hp : pm_format_match "" = false := by decide
    simp [get_24_hour_format, ha, hp, Nat.mod_eq_of_lt hh]
  · intro hpm
    have ha : am_format_match ind = false := by
      cases hA : am_format_match ind with
      | false => rfl
      | true =>
        rw [notPm_of_headA (headA_of_am hA)] at hpm
        exact absurd hpm (by simp)
    simp [get_24_hour_format, hpm, ha]
  · intro ham
    refine ⟨?_, ?_⟩
    · rintro rfl
      simp [get_24_hour_format, ham]
    · intro hne
      have hp := notPm_of_headA (headA_of_am ham)
      simp [get_24_hour_format, ham, hne, hp, Nat.mod_eq_of_lt hh]

/-- C6 witness: the four cases of `C6_get_24_hour_format_cases` at
concrete inputs. -/
theorem C6_get_24_hour_format_cases_witness :
    get_24_hour_format 5 "" = 5 ∧
    get_24_hour_format 5 "pm" = (5 + 12) % 24 ∧
    get_24_hour_format 12 "am" = 0 ∧
    get_24_hour_format 5 "am" = 5 :=
  ⟨(C6_get_24_hour_format_cases 5 (by decide) "").1 rfl,
   (C6_get_24_hour_format_cases 5 (by decide) "pm").2.1 (by decide),
   ((C6_get_24_hour_format_cases 12 (by decide) "am").2.2 (by decide)).1 rfl,
   ((C6_get_24_hour_format_cases 5 (by decide) "am").2.2 (by decide)).2 (by decide)⟩

theorem takeDigits_all (cs : List Char) :
    ((takeDigits cs).1).all Char.isDigit = true := by
  induction cs with
  | nil => rfl
  | cons c cs ih =>
    by_cases hc : c.isDigit
    · simp [takeDigits, hc, ih]
    · simp [takeDigits, hc]

theorem colon_not_mem_of_digits {d : List Char}
    (h : d.all Char.isDigit = true) : ':' ∉ d := by
  intro hmem
  rw [List.all_eq_true] at h
  exact absurd (h _ hmem) (by decide)

theorem splitCh_of_not_mem {sep : Char} {l : List Char} (h : sep ∉ l) :
    splitCh sep l = [l] := by
  induction l with
  | nil => rfl
  | cons c cs ih =>
    have hcne : ¬ (c = sep) := by
      intro he
      subst he
      exact h (List.mem_cons_self _ _)
    have hcs : sep ∉ cs := fun hm => h (List.mem_cons_of_mem _ hm)
    simp [splitCh, hcne, ih hcs]

theorem splitCh_append {d1 d2 : List Char} (h1 : ':' ∉ d1) (h2 : ':' ∉ d2) :
    splitCh ':' (d1 ++ ':' :: d2) = [d1, d2] := by
  induction d1 with
  | nil => simp [splitCh, splitCh_of_not_mem h2]
  | cons c cs ih =>
    have hcne : ¬ (c = ':') := by
      intro he
      subst he
      exact h1 (List.mem_cons_self _ _)
    have hcs : ':' ∉ cs := fun hm => h1 (List.mem_cons_of_mem _ hm)
    simp [splitCh, hcne, ih hcs]

theorem pyIntChars_of_digits {d : List Char} (hne : d ≠ [])
    (hall : d.all Char.isDigit = true) : ∃ n, pyIntChars d = some n :=
  ⟨d.foldl (fun a c => a * 10 + (c.toNat - 48)) 0, by simp [pyIntChars, hne, hall]⟩

/-- A nonempty all-digit string parses in `get_hours_minutes`. -/
theorem ghm_digits {d : List Char} (hne : d ≠ [])
    (hall : d.all Char.isDigit = true) :
    ∃ p, get_hours_minutes (String.mk d) = some p := by
  obtain ⟨n, hn⟩ := pyIntChars_of_digits hne hall
  have hnc : ':' ∉ d := colon_not_mem_of_digits hall
  refine ⟨(n, 0), ?_⟩
  simp [get_hours_minutes, hnc, hn]

/-- A digits-colon-digits string parses in `get_hours_minutes`. -/
theorem ghm_colon {d1 d2 : List Char} (h1 : d1 ≠ []) (ha1 : d1.all Char.isDigit = true)
    (h2 : d2 ≠ []) (ha2 : d2.all Char.isDigit = true) :
    ∃ p, get_hours_minutes (String.mk (d1 ++ ':' :: d2)) = some p := by
  obtain ⟨n1, hn1⟩ := pyIntChars_of_digits h1 ha1
  obtain ⟨n2, hn2⟩ := pyIntChars_of_digits h2 ha2
  have hmem : ':' ∈ d1 ++ ':' :: d2 :=
    List.mem_append.mpr (Or.inr (List.mem_cons_self _ _))
  have hsplit := splitCh_append (colon_not_mem_of_digits ha1) (colon_not_mem_of_digits ha2)
  refine ⟨(n1, n2), ?_⟩
  simp [get_hours_minutes, hmem, hsplit, hn1, hn2]

/-- Shape of the group captured by `timeGroup`: either a maximal digit
run, or a digit run, a colon and a second digit run. -/
theorem timeGroup_shape {cs g r : List Char} (h : timeGroup cs = some (g, r)) :
    ((takeDigits cs).1 ≠ [] ∧ g = (takeDigits cs).1) ∨
    (∃ r2, (takeDigits cs).1 ≠ [] ∧ (takeDigits r2).1 ≠ [] ∧
      g = (takeDigits cs).1 ++ ':' :: (takeDigits r2).1) := by
  simp only [timeGroup] at h
  split at h
  · exact absurd h (by simp)
  next h1 =>
    split at h
    · cases h
      exact Or.inl ⟨h1, rfl⟩
    next c r2 heq =>
      split at h
      next hc =>
        split at h
        next hd2 =>
          cases h
          exact Or.inl ⟨h1, rfl⟩
        next hd2 =>
          cases h
          exact Or.inr ⟨r2, h1, hd2, rfl⟩
      next hc =>
        cases h
        exact Or.inl ⟨h1, rfl⟩

/-- Every group captured by `timeGroup` parses in `get_hours_minutes`. -/
theorem ghm_of_timeGroup {cs g r : List Char} (h : timeGroup cs = some (g, r)) :
    ∃ p, get_hours_minutes (String.mk g) = some p := by
  rcases timeGroup_shape h with ⟨h1, hg⟩ | ⟨r2, h1, h2, hg⟩
  · exact hg ▸ ghm_digits h1 (takeDigits_all cs)
  · exact hg ▸ ghm_colon h1 (takeDigits_all cs) h2 (takeDigits_all r2)

/-- A matched alternative matches itself: the captured text still matches
the same literal pattern. -/
theorem ciTake_self {ps : List Char} :
    ∀ {cs g r : List Char}, ciTake ps cs = some (g, r) → ciTake ps g = some (g, []) := by
  induction ps with
  | nil =>
    intro cs g r h
    cases h
    rfl
  | cons p ps ih =>
    intro cs g r h
    cases cs with
    | nil => exact absurd h (by simp [ciTake])
    | cons c cs' =>
      simp only [ciTake] at h
      split at h
      next hpc =>
        split at h
        next g' r' heq =>
          cases h
          simp [ciTake, hpc, ih heq]
        next => exact absurd h (by simp)
      next => exact absurd h (by simp)

theorem firstTake_mem {alts : List String} {cs : List Char} {s : String}
    {r : List Char} (h : firstTake alts cs = some (s, r)) :
    ∃ a ∈ alts, ciTake a.data s.data = some (s.data, []) := by
  induction alts with
  | nil => exact absurd h (by simp [firstTake])
  | cons a rest ih =>
    simp only [firstTake] at h
    split at h
    next g r' heq =>
      cases h
      exact ⟨a, List.mem_cons_self _ _, ciTake_self heq⟩
    next =>
      obtain ⟨a', ha', hct⟩ := ih h
      exact ⟨a', List.mem_cons_of_mem _ ha', hct⟩

/-- A captured meridiem indicator matches the twelve-hour pattern. -/
theorem twelve_of_firstTake {cs : List Char} {s : String} {r : List Char}
    (h : firstTake meridiem_alts cs = some (s, r)) :
    twelve_hour_format_match s = true := by
  obtain ⟨a, ha, hct⟩ := firstTake_mem h
  simp only [twelve_hour_format_match, List.any_eq_true]
  exact ⟨a, ha, by rw [hct]; rfl⟩

theorem matchTail_inv {st si : String}
    (hst : ∃ p, get_hours_minutes st = some p)
    (hsi : si = "" ∨ twelve_hour_format_match si = true)
    (r3 : List Char) : MatchInv (matchTail st si r3).1 := by
  have base : MatchInv ⟨st, si, "", ""⟩ := by
    refine ⟨hst, ?_, ?_, ?_⟩
    · intro hne
      exact absurd rfl hne
    · intro hne
      rcases hsi with h | h
      · exact absurd h hne
      · exact h
    · intro hne
      exact absurd rfl hne
  cases r3 with
  | nil => exact base
  | cons sep r4 =>
    simp only [matchTail]
    split
    · split
      · exact base
      next et r5 htg =>
        split
        next ei r7 hft =>
          refine ⟨hst, ?_, ?_, ?_⟩
          · intro _
            exact ghm_of_timeGroup htg
          · intro hne
            rcases hsi with h | h
            · exact absurd h hne
            · exact h
          · intro _
            exact twelve_of_firstTake hft
        next hft => exact base
    · exact base

theorem matchAt_inv {cs : List Char} {m : RawMatch} {rest : List Char}
    (h : matchAt cs = some (m, rest)) : MatchInv m := by
  simp only [matchAt] at h
  split at h
  · exact absurd h (by simp)
  next st r1 htg =>
    have hst := ghm_of_timeGroup htg
    split at h
    next si r3 hft =>
      have hm : m = (matchTail (String.mk st) si r3).1 := by
        injection h with h2
        exact congrArg Prod.fst h2.symm
      rw [hm]
      exact matchTail_inv hst (Or.inr (twelve_of_firstTake hft)) r3
    next hft =>
      have hm : m = (matchTail (String.mk st) "" (skipWs r1)).1 := by
        injection h with h2
        exact congrArg Prod.fst h2.symm
      rw [hm]
      exact matchTail_inv hst (Or.inl rfl) _

/-- Every raw match the extractor yields satisfies the shape invariant. -/
theorem finditerAux_inv : ∀ (fuel : Nat) (cs : List Char) (m : RawMatch),
    m ∈ finditerAux fuel cs → MatchInv m := by
  intro fuel
  induction fuel with
  | zero =>
    intro cs m hm
    simp [finditerAux] at hm
  | succ fuel ih =>
    intro cs m hm
    cases cs with
    | nil => simp [finditerAux] at hm
    | cons c cs' =>
      simp only [finditerAux] at hm
      split at hm
      next m' rest heq =>
        rcases List.mem_cons.mp hm with h | h
        · subst h
          exact matchAt_inv heq
        · exact ih rest m h
      next => exact ih cs' m hm

theorem rangedHours_fst_lt (sh1 e0 : Nat) (si ei : String) (h : sh1 < 24) :
    (rangedHours sh1 e0 si ei false).1 < 24 := by
  simp only [rangedHours]
  repeat' split
  all_goals first
    | exact h
    | exact get_24_hour_format_lt _ _

/-- On a raw match of the extractor's shape, the resolver body succeeds,
produces a start hour below 24, and allocates its `Time` objects at fresh
identifiers at or beyond the current counter. -/
theorem resolveMatchCnt_spec {m : RawMatch} (hm : MatchInv m) (cnt : Nat) :
    ∃ slot cnt2, resolveMatchCnt m cnt = some (slot, cnt2) ∧
      slot.start_time.hours < 24 ∧ cnt ≤ slot.start_time.oid ∧
      slot.start_time.oid < cnt2 ∧ cnt < cnt2 := by
  obtain ⟨hA', hB, hC, hD⟩ := hm
  obtain ⟨⟨h0, sm⟩, hA⟩ := hA'
  by_cases hE : m.end_time = ""
  · simp only [resolveMatchCnt, hA, if_pos hE]
    refine ⟨_, _, rfl, ?_, ?_, ?_, ?_⟩
    · dsimp only
      by_cases hSI : m.SI = ""
      · rw [if_pos hSI]
        exact get_24_hour_format_lt _ _
      · rw [if_neg hSI, hC hSI]
        simp only [Bool.true_or, Bool.not_true, Bool.false_eq_true, if_false]
        exact get_24_hour_format_lt _ _
    · exact Nat.le_refl cnt
    · exact Nat.lt_succ_self cnt
    · exact Nat.lt_succ_self cnt
  · obtain ⟨⟨e0, em⟩, hBe⟩ := hB hE
    have hEI := hD hE
    simp only [resolveMatchCnt, hA, if_neg hE, hBe]
    refine ⟨_, _, rfl, ?_, ?_, ?_, ?_⟩
    · dsimp only
      rw [hEI]
      simp only [Bool.or_true, Bool.not_true, Bool.false_eq_true, if_false]
      exact rangedHours_fst_lt _ _ _ _ (get_24_hour_format_lt _ _)
    · exact Nat.le_succ cnt
    · exact Nat.lt_succ_self (cnt + 1)
    · omega

/-- The resolving loop on matches of the extractor's shape: it never
fails, adds exactly one slot per match (the freshly allocated `Time`
objects are never `==`-equal to anything already in the set), and every
slot it adds has start hour below 24. -/
theorem resolveAll_spec : ∀ (ms : List RawMatch) (cnt : Nat) (acc : List TimeSlot),
    (∀ m ∈ ms, MatchInv m) → (∀ s ∈ acc, s.start_time.oid < cnt) →
    ∃ slots, resolveAll ms cnt acc = some slots ∧
      slots.length = acc.length + ms.length ∧
      ∀ s ∈ slots, s ∈ acc ∨ s.start_time.hours < 24 := by
  intro ms
  induction ms with
  | nil =>
    intro cnt acc _ _
    exact ⟨acc, rfl, by simp, fun s hs => Or.inl hs⟩
  | cons m ms ih =>
    intro cnt acc hms hacc
    obtain ⟨slot, cnt2, heq, hlt, hge, hlt2, hcnt⟩ :=
      resolveMatchCnt_spec (hms m (List.mem_cons_self _ _)) cnt
    have hadd : setAdd acc slot = acc ++ [slot] := by
      rw [setAdd, if_neg]
      intro hany
      rw [List.any_eq_true] at hany
      obtain ⟨y, hy, hpy⟩ := hany
      rw [pyTimeSlotEq, Bool.and_eq_true] at hpy
      have hoid := hpy.1
      rw [pyTimeEq, beq_iff_eq] at hoid
      have hylt := hacc y hy
      omega
    have hacc2 : ∀ s ∈ acc ++ [slot], s.start_time.oid < cnt2 := by
      intro s hs
      rcases List.mem_append.mp hs with h | h
      · exact lt_trans (hacc s h) hcnt
      · rw [List.mem_singleton] at h
        subst h
        exact hlt2
    obtain ⟨slots, heq2, hlen, hmem⟩ :=
      ih cnt2 (acc ++ [slot]) (fun m' hm' => hms m' (List.mem_cons_of_mem _ hm')) hacc2
    refine ⟨slots, ?_, ?_, ?_⟩
    · simp only [resolveAll, heq, hadd]
      exact heq2
    · rw [hlen]
      simp
      omega
    · intro s hs
      rcases hmem s hs with h | h
      · rcases List.mem_append.mp h with h' | h'
        · exact Or.inl h'
        · rw [List.mem_singleton] at h'
          subst h'
          exact Or.inr hlt
      · exact Or.inr h

/-- C4, amended: every start `Time` the pipeline produces has hour in
[0,23] — every start hour passes through `get_24_hour_format`, whose
result is reduced mod 24.  (End hours are not always converted: see the
counterexample, where an end hour of 930 survives.) -/
theorem C4_start_hours_lt (line : String) (slots : List TimeSlot) (s : TimeSlot)
    (hres : get_available_times_from_line line = some slots) (hmem : s ∈ slots) :
    s.start_time.hours < 24 := by
  obtain ⟨slots', heq, _, hmemP⟩ :=
    resolveAll_spec (available_time_matches line) 0 []
      (fun m hm => finditerAux_inv _ _ m hm) (by simp)
  rw [get_available_times_from_line, heq] at hres
  cases hres
  rcases hmemP s hmem with h | h
  · simp at h
  · exact h

/-- C4 witness: the theorem applied to the line `"5"`, whose single slot
has start hour 17. -/
theorem C4_start_hours_lt_witness :
    (⟨⟨0, 17, 0⟩, none⟩ : TimeSlot).start_time.hours < 24 :=
  C4_start_hours_lt "5" [⟨⟨0, 17, 0⟩, none⟩] ⟨⟨0, 17, 0⟩, none⟩ (by decide) (by decide)

/-- C9: the pipeline is total — on every input line it returns a set (no
exception escapes), with exactly one interval per raw match of the
pattern; in particular a line with no match yields the empty set. -/
theorem C9_pipeline_total (line : String) :
    ∃ slots, get_available_times_from_line line = some slots ∧
      slots.length = (available_time_matches line).length := by
  obtain ⟨slots, heq, hlen, _⟩ :=
    resolveAll_spec (available_time_matches line) 0 []
      (fun m hm => finditerAux_inv _ _ m hm) (by simp)
  refine ⟨slots, ?_, ?_⟩
  · rw [get_available_times_from_line]
    exact heq
  · simpa using hlen
